import Mathlib

/-!
Shallow embedding of `src/streamlit_app.py` (Carbon Measures RSS Collector).

The Python program fetches Google News RSS results for a list of keywords,
normalizes each feed entry into a flat article record, concatenates the
per-keyword results, deduplicates them by URL (first occurrence wins), and
offers an interactive filter pipeline (date range, text search, keyword set,
source set) plus CSV/JSON export over the resulting table.

External collaborators (the network, `feedparser`, `dateutil`) are modelled
as explicit function parameters; the pandas operations used by the script
(`DataFrame.drop_duplicates`, boolean-mask row selection, column assignment,
`Series.str.contains`) are modelled directly on lists of records, and the
fragment of the regular-expression engine exercised by `str.contains`
(which passes the search text to `re` with `regex=True`) is modelled for
patterns made of literal characters and the `.` metacharacter.

Timestamps are modelled at pandas resolution: an integer count of
nanoseconds, with calendar dates mapped to the timestamp of their midnight.
-/

/-- One normalized article record: the `article` dict built per feed entry in
`fetch_google_news_rss` (keys `Keyword`, `Title`, `URL`, `Published`,
`Published_Date`, `Source`, `Description`).  `published_at` models
`Published_Date`: `none` when the raw date text is empty or fails to parse. -/
structure Article where
  keyword : String
  title : String
  url : String
  published : String
  published_at : Option Int
  source : String
  description : String
deriving DecidableEq, Repr

/-- One raw feed entry as delivered by `feedparser`: the fields the script
reads from `entry` (`title`, `link`, `published`, `source.title`, `summary`),
each already defaulted to `''` by `entry.get` except the nested source title,
whose possible absence is kept explicit. -/
structure Entry where
  title : String
  link : String
  published : String
  sourceTitle : Option String
  summary : String
deriving DecidableEq, Repr

/-- The fixed keyword list `KEYWORDS` at the top of the script. -/
def KEYWORDS : List String :=
  ["carbon measures", "scope 3 emissions", "exxon scope 3",
   "greenhouse gas protocol scope 3", "Amy Bracchio", "Karthik Ramanna"]

/-- The loop body of `fetch_google_news_rss` for a single entry: build the
article record.  `parseDate` stands for `dateutil.parser.parse`, returning
`none` where the Python call raises (the `try/except` around the parse).
The date is parsed only when the raw text is nonempty; the source label
falls back to `'Unknown'` when the feed omits the nested source title. -/
def entryToArticle (parseDate : String → Option Int) (keyword : String)
    (e : Entry) : Article :=
  { keyword := keyword
    title := e.title
    url := e.link
    published := e.published
    published_at := if e.published = "" then none else parseDate e.published
    source := e.sourceTitle.getD "Unknown"
    description := e.summary }

/-- `fetch_google_news_rss(keyword)`: retrieve and parse the feed for one
keyword.  `feedOf` stands for the network fetch plus whole-document parse
(`feedparser.parse` and iteration over `feed.entries`); a whole-document
failure is the `Except.error` case, which the function's `try/except`
converts to an empty article list (the error is surfaced via `st.error`,
a UI side effect outside the returned value). -/
def fetch_google_news_rss (parseDate : String → Option Int)
    (feedOf : String → Except String (List Entry)) (keyword : String) :
    List Article :=
  match feedOf keyword with
  | Except.error _ => []
  | Except.ok entries => entries.map (entryToArticle parseDate keyword)

/-- The accumulation loop of `collect_all_feeds`: `all_articles.extend(...)`
over the keywords in order. -/
def collectRaw (parseDate : String → Option Int)
    (feedOf : String → Except String (List Entry)) :
    List String → List Article
  | [] => []
  | k :: ks =>
      fetch_google_news_rss parseDate feedOf k ++ collectRaw parseDate feedOf ks

/-- `DataFrame.drop_duplicates(subset=['URL'], keep='first')`: keep each
record whose URL has not been seen earlier; `seen` accumulates the URLs of
the records already kept. -/
def drop_duplicates_by_url : List Article → List String → List Article
  | [], _ => []
  | a :: rest, seen =>
      if a.url ∈ seen then drop_duplicates_by_url rest seen
      else a :: drop_duplicates_by_url rest (a.url :: seen)

/-- `collect_all_feeds`: concatenate the per-keyword fetch results in keyword
order, then deduplicate by URL keeping the first occurrence.  (The script
guards the dedup with `if not df.empty`; on the empty table both branches
yield the empty table, as deduplicating an empty list is the identity.) -/
def collect_all_feeds (parseDate : String → Option Int)
    (feedOf : String → Except String (List Entry)) (keywords : List String) :
    List Article :=
  drop_duplicates_by_url (collectRaw parseDate feedOf keywords) []

/-! ## Timestamps and the date filter -/

/-- Nanoseconds per second: `pd.Timedelta(seconds=1)` at pandas resolution. -/
def nsPerSecond : Int := 1000000000

/-- Nanoseconds per day: `pd.Timedelta(days=1)` at pandas resolution. -/
def nsPerDay : Int := 86400 * nsPerSecond

/-- `pd.Timestamp(d)` for a calendar date `d`: midnight at the start of the
day.  A calendar date is modelled as an integer day index; all the script
needs of dates is this linear embedding into timestamps. -/
def timestampOfDate (d : Int) : Int := d * nsPerDay

/-- Per-record value of the boolean series `date_mask`:
`Published_Date.isna() | (compare >= start_datetime & compare <= end_datetime)`
with `start_datetime = pd.Timestamp(start_date)` and
`end_datetime = pd.Timestamp(end_date) + pd.Timedelta(days=1) - pd.Timedelta(seconds=1)`.
Timezone stripping (`tz_localize(None)`) is the identity here since modelled
timestamps are already naive. -/
def dateMask (startDate endDate : Int) (a : Article) : Bool :=
  a.published_at.isNone ||
    match a.published_at with
    | none => false
    | some t =>
        decide (timestampOfDate startDate ≤ t) &&
        decide (t ≤ timestampOfDate endDate + nsPerDay - nsPerSecond)

/-! ## The search step and its regular-expression fragment

`Series.str.contains(search_term, case=False, na=False)` hands `search_term`
to the `re` engine (`regex=True` is the pandas default) compiled with
`re.IGNORECASE`, and tests whether the pattern matches anywhere in the
string (`re.search`).  The fragment of `re` exercised here is modelled for
patterns made of literal characters and the `.` metacharacter; case
insensitivity is modelled by lowercasing both the pattern literals and the
subject (exact for ASCII, which is all the script's fixed keywords use).
`na=False` is moot: every field tested is a string defaulted to `''`. -/

/-- One compiled pattern element: a literal character or the `.` wildcard. -/
inductive RChar where
  | lit (c : Char)
  | dot
deriving DecidableEq, Repr

/-- Whether one pattern element matches one subject character (`.` matches
any character except a newline, as in `re` without `DOTALL`). -/
def rcharMatches (r : RChar) (c : Char) : Bool :=
  match r with
  | RChar.lit a => a == c
  | RChar.dot => c != '\n'

/-- Whether the whole pattern matches a prefix of the subject. -/
def matchHere : List RChar → List Char → Bool
  | [], _ => true
  | _ :: _, [] => false
  | r :: rs, c :: cs => rcharMatches r c && matchHere rs cs

/-- `re.search`: whether the pattern matches starting at some position of the
subject (i.e. matches a prefix of some suffix). -/
def searchFrom (pat : List RChar) : List Char → Bool
  | [] => matchHere pat []
  | c :: cs => matchHere pat (c :: cs) || searchFrom pat cs

/-- Compile the search text: `.` becomes the wildcard, every other character
a literal (lowercased, modelling `re.IGNORECASE`).  Faithful to `re` for
search texts whose only metacharacter is `.`. -/
def compileSearch (s : String) : List RChar :=
  s.data.map (fun c => if c = '.' then RChar.dot else RChar.lit c.toLower)

/-- The characters `re` treats as metacharacters; a search text avoiding all
of them is matched purely literally. -/
def isRegexMeta (c : Char) : Bool :=
  c = '.' || c = '^' || c = '$' || c = '*' || c = '+' || c = '?' ||
  c = '\x7b' || c = '\x7d' || c = '[' || c = ']' || c = '(' || c = ')' ||
  c = '|' || c = '\\'

/-- `str.contains(term, case=False, na=False)` applied to one field. -/
def containsCI (term : String) (field : String) : Bool :=
  searchFrom (compileSearch term) (field.data.map Char.toLower)

/-- The substring relation the specification describes: the search text
occurs case-insensitively as a (contiguous) substring of the field.
This definition follows the spec words, for comparison with `containsCI`. -/
def OccursCI (term : String) (field : String) : Prop :=
  term.data.map Char.toLower <:+: field.data.map Char.toLower

instance (term field : String) : Decidable (OccursCI term field) :=
  List.decidableInfix _ _

/-! ## The filter pipeline of the Search & Filter tab -/

/-- A dataframe as the script sees it: the article rows plus whether the
helper column `Published_Date_Compare` has been added (its values are
derived from `Published_Date`, so only its presence needs tracking). -/
structure DataFrame where
  rows : List Article
  hasCompare : Bool
deriving DecidableEq, Repr

/-- `df.copy()`. -/
def DataFrame.copy (f : DataFrame) : DataFrame :=
  { rows := f.rows, hasCompare := f.hasCompare }

/-- The date-filter block (lines 297-311): when some row has a parsed date,
assign the comparison column and keep rows satisfying `dateMask`; otherwise
the mask is just `isna()`, keeping exactly the rows without a parsed date. -/
def dateStepF (startDate endDate : Int) (f : DataFrame) : DataFrame :=
  if f.rows.any (fun a => a.published_at.isSome) then
    { rows := f.rows.filter (dateMask startDate endDate), hasCompare := true }
  else
    { rows := f.rows.filter (fun a => a.published_at.isNone),
      hasCompare := f.hasCompare }

/-- The search block (lines 313-316): a falsy (empty) `search_term` skips the
step; otherwise keep rows where the term matches title or description. -/
def searchStep (term : String) (rows : List Article) : List Article :=
  if term = "" then rows
  else rows.filter (fun a => containsCI term a.title || containsCI term a.description)

/-- The keyword block (lines 318-319): a falsy (empty) selection skips the
step; otherwise keep rows whose `Keyword` is in the selection (`isin`). -/
def keywordStep (selected : List String) (rows : List Article) : List Article :=
  match selected with
  | [] => rows
  | _ :: _ => rows.filter (fun a => selected.contains a.keyword)

/-- The source block (lines 321-322): a falsy (empty) selection skips the
step; otherwise keep rows whose `Source` is in the selection (`isin`). -/
def sourceStep (selected : List String) (rows : List Article) : List Article :=
  match selected with
  | [] => rows
  | _ :: _ => rows.filter (fun a => selected.contains a.source)

/-- Lift a row-level step to frames (these steps touch no columns). -/
def liftStep (step : List Article → List Article) (f : DataFrame) : DataFrame :=
  { rows := step f.rows, hasCompare := f.hasCompare }

/-- The whole filter pipeline as a function of the input table: date filter,
then search, then keyword, then source, in the script's order. -/
def applyFilters (startDate endDate : Int) (term : String)
    (kws srcs : List String) (f : DataFrame) : DataFrame :=
  liftStep (sourceStep srcs)
    (liftStep (keywordStep kws)
      (liftStep (searchStep term)
        (dateStepF startDate endDate f)))

/-! ## The pipeline as the script runs it: two dataframe variables

`main` holds the collected table in `df` (session state) and builds
`filtered_df` from it.  `filtered_df = df.copy()` makes the two independent;
the only in-place write of the pipeline is the column assignment
`filtered_df['Published_Date_Compare'] = ...`, which would reach `df` too if
the two variables still shared storage — `aliased` tracks that sharing. -/

structure PipelineState where
  df : DataFrame
  filtered : DataFrame
  aliased : Bool
deriving DecidableEq, Repr

/-- `filtered_df['Published_Date_Compare'] = ...` (line 306): an in-place
column write, visible through every alias of the same storage. -/
def assignCompareColumn (st : PipelineState) : PipelineState :=
  { df := if st.aliased then { st.df with hasCompare := true } else st.df,
    filtered := { st.filtered with hasCompare := true },
    aliased := st.aliased }

/-- Lines 294-322 of `main`: copy the table, then apply the date, search,
keyword and source blocks.  Row selections (`filtered_df = filtered_df[mask]`)
produce fresh frames and rebind `filtered_df`, ending any aliasing. -/
def runFilterPipeline (startDate endDate : Int) (term : String)
    (kws srcs : List String) (df0 : DataFrame) : PipelineState :=
  let st0 : PipelineState := { df := df0, filtered := df0.copy, aliased := false }
  let st1 :=
    if st0.filtered.rows.any (fun a => a.published_at.isSome) then
      let stc := assignCompareColumn st0
      { stc with
        filtered := { stc.filtered with
                      rows := stc.filtered.rows.filter (dateMask startDate endDate) },
        aliased := false }
    else
      { st0 with
        filtered := { st0.filtered with
                      rows := st0.filtered.rows.filter (fun a => a.published_at.isNone) },
        aliased := false }
  let st2 := { st1 with filtered := { st1.filtered with rows := searchStep term st1.filtered.rows } }
  let st3 := { st2 with filtered := { st2.filtered with rows := keywordStep kws st2.filtered.rows } }
  { st3 with filtered := { st3.filtered with rows := sourceStep srcs st3.filtered.rows } }

/-! ## Export shape -/

/-- The seven columns of the collected table, in construction order. -/
def baseColumns : List String :=
  ["Keyword", "Title", "URL", "Published", "Published_Date", "Source", "Description"]

/-- The column list of a dataframe: the seven construction columns, plus the
comparison column at the end when it has been assigned (pandas appends a new
column after the existing ones). -/
def DataFrame.columns (f : DataFrame) : List String :=
  baseColumns ++ if f.hasCompare then ["Published_Date_Compare"] else []

/-- Rendering of an optional timestamp in an export cell. -/
def renderTimestamp : Option Int → String
  | none => ""
  | some t => toString t

/-- One exported row, cell per column, in column order.  The comparison
column holds the timezone-stripped copy of `Published_Date`, which for the
naive timestamps modelled here is the same value. -/
def articleCsvRow (hasCompare : Bool) (a : Article) : List String :=
  [a.keyword, a.title, a.url, a.published, renderTimestamp a.published_at,
   a.source, a.description] ++
  (if hasCompare then [renderTimestamp a.published_at] else [])

/-- `df.to_csv(index=False)`: a header row listing the columns, then one row
per record. -/
def to_csv (f : DataFrame) : List (List String) :=
  f.columns :: f.rows.map (articleCsvRow f.hasCompare)

/-- `df.to_json(orient='records')`: an array of objects, one per record,
with one field per column. -/
def to_json (f : DataFrame) : List (List (String × String)) :=
  f.rows.map (fun a => f.columns.zip (articleCsvRow f.hasCompare a))

/-- The collected table as stored in session state and exported from the
Collect tab: the rows of `collect_all_feeds`, with exactly the seven
construction columns. -/
def collectFrame (parseDate : String → Option Int)
    (feedOf : String → Except String (List Entry)) (keywords : List String) :
    DataFrame :=
  { rows := collect_all_feeds parseDate feedOf keywords, hasCompare := false }

/-! ## Concrete instances used to exercise the definitions -/

/-- A date parser that fails on every input. -/
def parseDateNone : String → Option Int := fun _ => none

/-- A feed entry with an empty date text. -/
def entryNoDate : Entry :=
  { title := "Example title", link := "https://example.org/a", published := "",
    sourceTitle := none, summary := "summary" }

/-- A feed entry whose date text will fail to parse. -/
def entryBadDate : Entry :=
  { title := "Dated title", link := "https://example.org/b",
    published := "not-a-date", sourceTitle := some "Example Source",
    summary := "dated summary" }

/-- An environment where keyword `a` fails at the document level and keyword
`b` succeeds with one entry. -/
def feedOfAB : String → Except String (List Entry) :=
  fun k => if k = "a" then Except.error "boom" else Except.ok [entryNoDate]

/-- An environment where every keyword succeeds with the single bad-date
entry. -/
def feedOfBad : String → Except String (List Entry) :=
  fun _ => Except.ok [entryBadDate]

/-- A record with no parsed publication date. -/
def artNoDate : Article :=
  { keyword := "k", title := "t", url := "u", published := "",
    published_at := none, source := "Unknown", description := "" }

/-- A record published in the very last nanosecond of calendar day `0`. -/
def artLate : Article :=
  { keyword := "k", title := "t", url := "u", published := "raw",
    published_at := some (nsPerDay - 1), source := "s", description := "" }

/-- A record published exactly at midnight of calendar day `0`. -/
def artMid : Article :=
  { keyword := "k", title := "t", url := "u", published := "raw",
    published_at := some 0, source := "s", description := "" }

/-- A record whose title is `abc`. -/
def artAbc : Article :=
  { keyword := "k", title := "abc", url := "u", published := "",
    published_at := none, source := "s", description := "" }

/-- A record with the title of the specification's search example. -/
def artScope : Article :=
  { keyword := "k", title := "Scope 3 emissions rise", url := "u",
    published := "", published_at := none, source := "s", description := "" }

/-! ## Deduplication lemmas -/

/-- Every record surviving deduplication comes from the input list, and its
URL was not among the already-seen URLs. -/
theorem mem_drop_duplicates_url :
    ∀ {l : List Article} {seen : List String} {a : Article},
      a ∈ drop_duplicates_by_url l seen → a ∈ l ∧ a.url ∉ seen
  | [], seen, a => by simp [drop_duplicates_by_url]
  | b :: rest, seen, a => by
      simp only [drop_duplicates_by_url]
      by_cases hseen : b.url ∈ seen
      · rw [if_pos hseen]
        intro h
        have := mem_drop_duplicates_url h
        exact ⟨List.mem_cons_of_mem _ this.1, this.2⟩
      · rw [if_neg hseen]
        intro h
        rcases List.mem_cons.mp h with h | h
        · exact ⟨h ▸ List.mem_cons_self _ _, h ▸ hseen⟩
        · have := mem_drop_duplicates_url h
          refine ⟨List.mem_cons_of_mem _ this.1, fun hs => this.2 ?_⟩
          exact List.mem_cons_of_mem _ hs

/-- Deduplication leaves no two records with the same URL. -/
theorem drop_duplicates_pairwise :
    ∀ (l : List Article) (seen : List String),
      (drop_duplicates_by_url l seen).Pairwise (fun a b => a.url ≠ b.url)
  | [], _ => List.Pairwise.nil
  | b :: rest, seen => by
      simp only [drop_duplicates_by_url]
      by_cases hseen : b.url ∈ seen
      · rw [if_pos hseen]; exact drop_duplicates_pairwise rest seen
      · rw [if_neg hseen]
        refine List.Pairwise.cons ?_ (drop_duplicates_pairwise rest (b.url :: seen))
        intro c hc
        have := (mem_drop_duplicates_url hc).2
        intro heq
        exact this (heq ▸ List.mem_cons_self _ _)

/-- The records deduplication keeps for a given URL: none when the URL was
already seen, otherwise exactly the first input record carrying it. -/
theorem drop_duplicates_filter (u : String) :
    ∀ (l : List Article) (seen : List String),
      (drop_duplicates_by_url l seen).filter (fun a => a.url == u) =
        if u ∈ seen then [] else (l.filter (fun a => a.url == u)).take 1
  | [], seen => by
      simp only [drop_duplicates_by_url, List.filter_nil, List.take_nil]
      split <;> rfl
  | b :: rest, seen => by
      simp only [drop_duplicates_by_url]
      by_cases hseen : b.url ∈ seen
      · rw [if_pos hseen, drop_duplicates_filter u rest seen]
        by_cases hu : u ∈ seen
        · rw [if_pos hu, if_pos hu]
        · have hne : (b.url == u) = false := by
            rw [beq_eq_false_iff_ne]
            intro h
            exact hu (h ▸ hseen)
          rw [if_neg hu, if_neg hu, List.filter_cons_of_neg (by simp [hne])]
      · rw [if_neg hseen]
        by_cases hbu : b.url = u
        · have hu : u ∉ seen := fun h => hseen (hbu ▸ h)
          rw [List.filter_cons_of_pos (by simp [hbu]),
              drop_duplicates_filter u rest (b.url :: seen),
              if_pos (by simp [hbu]), if_neg hu,
              List.filter_cons_of_pos (by simp [hbu])]
          rfl
        · rw [List.filter_cons_of_neg (by simp [hbu]),
              drop_duplicates_filter u rest (b.url :: seen)]
          by_cases hu : u ∈ seen
          · rw [if_pos (List.mem_cons_of_mem _ hu), if_pos hu]
          · have hmem : u ∉ b.url :: seen := by
              intro h
              rcases List.mem_cons.mp h with h | h
              · exact hbu h.symm
              · exact hu h
            rw [if_neg hmem, if_neg hu,
                List.filter_cons_of_neg (by simp [hbu])]

/-- Claim C1: the table returned by `collect_all_feeds` holds no two records
with the same URL, and for every URL it retains exactly the first record of
the concatenated fetch results (keyword order, feed order within a keyword)
carrying that URL. -/
theorem collect_no_duplicate_urls_first_seen (parseDate : String → Option Int)
    (feedOf : String → Except String (List Entry)) (keywords : List String) :
    (collect_all_feeds parseDate feedOf keywords).Pairwise
        (fun a b => a.url ≠ b.url) ∧
    ∀ u : String,
      (collect_all_feeds parseDate feedOf keywords).filter (fun a => a.url == u) =
        ((collectRaw parseDate feedOf keywords).filter (fun a => a.url == u)).take 1 := by
  refine ⟨drop_duplicates_pairwise _ _, fun u => ?_⟩
  have h := drop_duplicates_filter u (collectRaw parseDate feedOf keywords) []
  simpa [collect_all_feeds] using h

/-! ## Failure isolation -/

/-- The accumulation loop distributes over concatenation of keyword lists. -/
theorem collectRaw_append (parseDate : String → Option Int)
    (feedOf : String → Except String (List Entry)) :
    ∀ (l₁ l₂ : List String),
      collectRaw parseDate feedOf (l₁ ++ l₂) =
        collectRaw parseDate feedOf l₁ ++ collectRaw parseDate feedOf l₂
  | [], l₂ => by simp [collectRaw]
  | k :: ks, l₂ => by
      simp [collectRaw, collectRaw_append parseDate feedOf ks l₂]

/-- Claim C2: a whole-document fetch or parse failure for a keyword makes
`fetch_google_news_rss` return the empty record list (the failure never
escapes its `try/except` boundary), and the collection run over any keyword
list containing that keyword yields exactly what it yields without the
failing keyword — the remaining keywords are unaffected. -/
theorem fetch_failure_isolated (parseDate : String → Option Int)
    (feedOf : String → Except String (List Entry)) (k msg : String)
    (h : feedOf k = Except.error msg) :
    fetch_google_news_rss parseDate feedOf k = [] ∧
    ∀ ks₁ ks₂ : List String,
      collect_all_feeds parseDate feedOf (ks₁ ++ k :: ks₂) =
        collect_all_feeds parseDate feedOf (ks₁ ++ ks₂) := by
  have hfetch : fetch_google_news_rss parseDate feedOf k = [] := by
    simp [fetch_google_news_rss, h]
  refine ⟨hfetch, fun ks₁ ks₂ => ?_⟩
  unfold collect_all_feeds
  rw [collectRaw_append, collectRaw_append]
  simp [collectRaw, hfetch]

/-- Witness for claim C2 at a concrete environment: `a` fails at the document
level, `b` succeeds with one entry; fetching `a` yields no records and the
run `["a", "b"]` collects exactly what `["b"]` alone collects. -/
theorem fetch_failure_isolated_witness :
    fetch_google_news_rss parseDateNone feedOfAB "a" = [] ∧
    collect_all_feeds parseDateNone feedOfAB ["a", "b"] =
      collect_all_feeds parseDateNone feedOfAB ["b"] :=
  ⟨(fetch_failure_isolated parseDateNone feedOfAB "a" "boom" rfl).1,
   (fetch_failure_isolated parseDateNone feedOfAB "a" "boom" rfl).2 [] ["b"]⟩

/-! ## The date filter -/

/-- In both branches of the date block the surviving rows are exactly those
satisfying `date_mask`: when no row has a parsed date, every row passes the
`isna()` mask and the full mask alike. -/
theorem dateStepF_rows (s e : Int) (f : DataFrame) :
    (dateStepF s e f).rows = f.rows.filter (dateMask s e) := by
  unfold dateStepF
  split
  · rfl
  · next h =>
    have hall : ∀ a ∈ f.rows, a.published_at.isNone = true := by
      intro a ha
      rcases hpa : a.published_at with _ | t
      · rfl
      · exact absurd (List.any_eq_true.mpr ⟨a, ha, by simp [hpa]⟩) h
    have h1 : f.rows.filter (fun a => a.published_at.isNone) = f.rows :=
      List.filter_eq_self.mpr hall
    have h2 : f.rows.filter (dateMask s e) = f.rows :=
      List.filter_eq_self.mpr (fun a ha => by simp [dateMask, hall a ha])
    simp [h1, h2]

/-- The comparison column is present after the date block iff it was present
before or some input row carries a parsed date. -/
theorem dateStepF_hasCompare (s e : Int) (f : DataFrame) :
    (dateStepF s e f).hasCompare =
      (f.hasCompare || f.rows.any (fun a => a.published_at.isSome)) := by
  unfold dateStepF
  split
  · next h => simp [h]
  · next h =>
    rw [Bool.not_eq_true] at h
    rw [h, Bool.or_false]

/-- Claim C3: a record whose `published_at` is absent is retained by the
date-range filter, whatever the range bounds. -/
theorem date_filter_keeps_undated (s e : Int) (f : DataFrame) (a : Article)
    (ha : a ∈ f.rows) (hnone : a.published_at = none) :
    a ∈ (dateStepF s e f).rows := by
  rw [dateStepF_rows]
  exact List.mem_filter.mpr ⟨ha, by simp [dateMask, hnone]⟩

/-- Witness for claim C3: a dateless record survives even an inverted date
range (start after end) that every timestamp would fail. -/
theorem date_filter_keeps_undated_witness :
    artNoDate ∈ (dateStepF 5 3 { rows := [artNoDate], hasCompare := false }).rows :=
  date_filter_keeps_undated 5 3 _ artNoDate (by simp) rfl

/-- Claim C4 counterexample: a record published in the last nanosecond of
calendar day `0` — squarely on the end date of the range `[0, 0]` — is
dropped by the date filter, because the code's upper bound is
`end date + 1 day - 1 second` (23:59:59), not the last instant of the day. -/
theorem date_filter_end_day_counterexample :
    timestampOfDate 0 ≤ nsPerDay - 1 ∧ nsPerDay - 1 < timestampOfDate 1 ∧
    (dateStepF 0 0 { rows := [artLate], hasCompare := false }).rows = [] := by
  refine ⟨by decide, by decide, by decide⟩

/-- Claim C4 (amended): a record with a present `published_at` is retained by
the date filter iff its timestamp lies between midnight of the start date
(inclusive) and 23:59:59 of the end date (midnight of the day after the end
date, minus one second, inclusive); timestamps on the end date that fall
strictly inside its final second are excluded. -/
theorem date_filter_dated_range (s e : Int) (f : DataFrame) (a : Article)
    (t : Int) (ha : a ∈ f.rows) (hsome : a.published_at = some t) :
    a ∈ (dateStepF s e f).rows ↔
      timestampOfDate s ≤ t ∧ t ≤ timestampOfDate e + nsPerDay - nsPerSecond := by
  rw [dateStepF_rows, List.mem_filter]
  simp [dateMask, hsome, ha]

/-- Witness for claim C4 (amended): a record published exactly at midnight of
the end day of the range `[0, 0]` is retained. -/
theorem date_filter_dated_range_witness :
    artMid ∈ (dateStepF 0 0 { rows := [artMid], hasCompare := false }).rows :=
  (date_filter_dated_range 0 0 _ artMid 0 (by simp) rfl).mpr (by decide)

/-! ## The search filter -/

/-- A pattern of literal characters matches at the start of a subject iff the
character list is a prefix of the subject. -/
theorem matchHere_lit : ∀ (pat s : List Char),
    matchHere (pat.map RChar.lit) s = true ↔ pat <+: s
  | [], s => by simp [matchHere]
  | p :: ps, [] => by simp [matchHere, List.prefix_nil]
  | p :: ps, c :: cs => by
      simp [matchHere, rcharMatches, matchHere_lit ps cs, List.cons_prefix_cons]

/-- A pattern of literal characters matches somewhere in a subject iff the
character list is a contiguous substring of the subject. -/
theorem searchFrom_lit (pat : List Char) : ∀ (s : List Char),
    searchFrom (pat.map RChar.lit) s = true ↔ pat <:+: s
  | [] => by
      simp [searchFrom, matchHere_lit, List.prefix_nil, List.infix_nil]
  | c :: cs => by
      rw [searchFrom]
      simp [Bool.or_eq_true, matchHere_lit, searchFrom_lit pat cs,
        List.infix_cons_iff]

/-- A search text free of regex metacharacters compiles to a pattern of
lowercased literals. -/
theorem compileSearch_of_no_meta (s : String)
    (h : ∀ c ∈ s.data, isRegexMeta c = false) :
    compileSearch s = (s.data.map Char.toLower).map RChar.lit := by
  unfold compileSearch
  rw [List.map_map]
  apply List.map_congr_left
  intro c hc
  have hmeta := h c hc
  have hdot : ¬ c = '.' := by
    intro hcdot
    rw [hcdot] at hmeta
    simp [isRegexMeta] at hmeta
  simp [hdot, Function.comp]

/-- For a metacharacter-free search text, `str.contains(term, case=False)`
coincides with case-insensitive substring occurrence. -/
theorem containsCI_iff_occurs (term field : String)
    (h : ∀ c ∈ term.data, isRegexMeta c = false) :
    containsCI term field = true ↔ OccursCI term field := by
  unfold containsCI OccursCI
  rw [compileSearch_of_no_meta term h, searchFrom_lit]

/-- Claim C5 counterexample: with search text `a.c` the search step retains a
record titled `abc`, although `a.c` does not occur case-insensitively as a
substring of the title nor of the (empty) description: `str.contains`
interprets the search text as a regular expression (`regex=True` default),
where `.` matches any character. -/
theorem search_filter_substring_counterexample :
    searchStep "a.c" [artAbc] = [artAbc] ∧
    ¬ OccursCI "a.c" artAbc.title ∧ ¬ OccursCI "a.c" artAbc.description :=
  ⟨by decide, by decide, by decide⟩

/-- Claim C5 (amended): the search text is handed to the regex engine, not
matched literally.  An empty search text imposes no restriction, and for a
nonempty search text containing no regex metacharacter the step behaves as
claimed: a record is retained iff the text occurs case-insensitively as a
substring of its title or of its description. -/
theorem search_filter_semantics (term : String) (rows : List Article) :
    (term = "" → searchStep term rows = rows) ∧
    (term ≠ "" → (∀ c ∈ term.data, isRegexMeta c = false) →
      ∀ a ∈ rows,
        (a ∈ searchStep term rows ↔
          OccursCI term a.title ∨ OccursCI term a.description)) := by
  constructor
  · intro h
    simp [searchStep, h]
  · intro hne hmeta a ha
    rw [searchStep, if_neg hne, List.mem_filter]
    simp [ha, Bool.or_eq_true, containsCI_iff_occurs _ _ hmeta]

/-- Witness for claim C5 (amended) at the specification's own example:
searching `SCOPE` retains the record titled `Scope 3 emissions rise`. -/
theorem search_filter_semantics_witness :
    artScope ∈ searchStep "SCOPE" [artScope] :=
  ((search_filter_semantics "SCOPE" [artScope]).2 (by decide) (by decide)
      artScope (by simp)).mpr (Or.inl (by decide))

/-! ## Keyword and source filters, idempotence -/

/-- Claim C6: an empty keyword selection imposes no restriction, and likewise
an empty source selection: both filter blocks are skipped (the selections are
falsy) and the table passes through unchanged. -/
theorem empty_selection_no_restriction (rows : List Article) :
    keywordStep [] rows = rows ∧ sourceStep [] rows = rows :=
  ⟨rfl, rfl⟩

/-- Records surviving the search step come from its input. -/
theorem mem_of_mem_searchStep {term : String} {rows : List Article}
    {a : Article} (h : a ∈ searchStep term rows) : a ∈ rows := by
  unfold searchStep at h
  split at h
  · exact h
  · exact (List.mem_filter.mp h).1

/-- A record surviving a nonempty search step satisfies the search mask. -/
theorem searchStep_mem_pred {term : String} {rows : List Article} {a : Article}
    (hne : ¬ term = "") (h : a ∈ searchStep term rows) :
    (containsCI term a.title || containsCI term a.description) = true := by
  unfold searchStep at h
  rw [if_neg hne] at h
  exact (List.mem_filter.mp h).2

/-- Records surviving the keyword step come from its input. -/
theorem mem_of_mem_keywordStep {sel : List String} {rows : List Article}
    {a : Article} (h : a ∈ keywordStep sel rows) : a ∈ rows := by
  cases sel with
  | nil => exact h
  | cons k ks => exact (List.mem_filter.mp h).1

/-- A record surviving a nonempty keyword step has a selected keyword. -/
theorem keywordStep_mem_pred {k : String} {ks : List String}
    {rows : List Article} {a : Article} (h : a ∈ keywordStep (k :: ks) rows) :
    (k :: ks).contains a.keyword = true :=
  (List.mem_filter.mp h).2

/-- Records surviving the source step come from its input. -/
theorem mem_of_mem_sourceStep {sel : List String} {rows : List Article}
    {a : Article} (h : a ∈ sourceStep sel rows) : a ∈ rows := by
  cases sel with
  | nil => exact h
  | cons k ks => exact (List.mem_filter.mp h).1

/-- A record surviving a nonempty source step has a selected source. -/
theorem sourceStep_mem_pred {k : String} {ks : List String}
    {rows : List Article} {a : Article} (h : a ∈ sourceStep (k :: ks) rows) :
    (k :: ks).contains a.source = true :=
  (List.mem_filter.mp h).2

/-- The search step fixes any list all of whose records it would keep. -/
theorem searchStep_eq_self {term : String} {rows : List Article}
    (h : ∀ a ∈ rows,
      term = "" ∨ (containsCI term a.title || containsCI term a.description) = true) :
    searchStep term rows = rows := by
  unfold searchStep
  split
  · rfl
  · next hne =>
    refine List.filter_eq_self.mpr (fun a ha => ?_)
    rcases h a ha with h | h
    · exact absurd h hne
    · exact h

/-- The keyword step fixes any list all of whose records it would keep. -/
theorem keywordStep_eq_self {sel : List String} {rows : List Article}
    (h : ∀ a ∈ rows, sel = [] ∨ sel.contains a.keyword = true) :
    keywordStep sel rows = rows := by
  cases sel with
  | nil => rfl
  | cons k ks =>
      simp only [keywordStep]
      refine List.filter_eq_self.mpr (fun a ha => ?_)
      rcases h a ha with h | h
      · exact absurd h (by simp)
      · exact h

/-- The source step fixes any list all of whose records it would keep. -/
theorem sourceStep_eq_self {sel : List String} {rows : List Article}
    (h : ∀ a ∈ rows, sel = [] ∨ sel.contains a.source = true) :
    sourceStep sel rows = rows := by
  cases sel with
  | nil => rfl
  | cons k ks =>
      simp only [sourceStep]
      refine List.filter_eq_self.mpr (fun a ha => ?_)
      rcases h a ha with h | h
      · exact absurd h (by simp)
      · exact h

/-- The rows of the full pipeline: the date mask first, then the three
row-level steps in script order. -/
theorem applyFilters_rows (s e : Int) (term : String) (kws srcs : List String)
    (f : DataFrame) :
    (applyFilters s e term kws srcs f).rows =
      sourceStep srcs (keywordStep kws
        (searchStep term (f.rows.filter (dateMask s e)))) := by
  simp [applyFilters, liftStep, dateStepF_rows]

/-- The columns of the full pipeline: the comparison column appears exactly
when it was already there or some input row carries a parsed date. -/
theorem applyFilters_hasCompare (s e : Int) (term : String)
    (kws srcs : List String) (f : DataFrame) :
    (applyFilters s e term kws srcs f).hasCompare =
      (f.hasCompare || f.rows.any (fun a => a.published_at.isSome)) := by
  simp [applyFilters, liftStep, dateStepF_hasCompare]

/-- Every record of the filtered table is an input record passing the date
mask. -/
theorem mem_applyFilters_rows {s e : Int} {term : String}
    {kws srcs : List String} {f : DataFrame} {a : Article}
    (h : a ∈ (applyFilters s e term kws srcs f).rows) :
    a ∈ f.rows.filter (dateMask s e) := by
  rw [applyFilters_rows] at h
  exact mem_of_mem_searchStep (mem_of_mem_keywordStep (mem_of_mem_sourceStep h))

/-- Two dataframes agreeing on rows and columns are equal. -/
theorem DataFrame.eq_of_parts {x y : DataFrame} (h1 : x.rows = y.rows)
    (h2 : x.hasCompare = y.hasCompare) : x = y := by
  cases x; cases y; simp_all

/-- Claim C7: applying the filter pipeline twice with the same criteria
yields the same table as applying it once. -/
theorem filter_idempotent (s e : Int) (term : String) (kws srcs : List String)
    (f : DataFrame) :
    applyFilters s e term kws srcs (applyFilters s e term kws srcs f) =
      applyFilters s e term kws srcs f := by
  apply DataFrame.eq_of_parts
  · rw [applyFilters_rows]
    have hdm : ∀ a ∈ (applyFilters s e term kws srcs f).rows,
        dateMask s e a = true := fun a ha =>
      (List.mem_filter.mp (mem_applyFilters_rows ha)).2
    rw [List.filter_eq_self.mpr hdm]
    have h1 : searchStep term (applyFilters s e term kws srcs f).rows =
        (applyFilters s e term kws srcs f).rows := by
      refine searchStep_eq_self (fun a ha => ?_)
      by_cases hterm : term = ""
      · exact Or.inl hterm
      · refine Or.inr ?_
        rw [applyFilters_rows] at ha
        exact searchStep_mem_pred hterm
          (mem_of_mem_keywordStep (mem_of_mem_sourceStep ha))
    have h2 : keywordStep kws (applyFilters s e term kws srcs f).rows =
        (applyFilters s e term kws srcs f).rows := by
      refine keywordStep_eq_self (fun a ha => ?_)
      cases kws with
      | nil => exact Or.inl rfl
      | cons k ks =>
          refine Or.inr ?_
          rw [applyFilters_rows] at ha
          exact keywordStep_mem_pred (mem_of_mem_sourceStep ha)
    have h3 : sourceStep srcs (applyFilters s e term kws srcs f).rows =
        (applyFilters s e term kws srcs f).rows := by
      refine sourceStep_eq_self (fun a ha => ?_)
      cases srcs with
      | nil => exact Or.inl rfl
      | cons k ks =>
          refine Or.inr ?_
          rw [applyFilters_rows] at ha
          exact sourceStep_mem_pred ha
    rw [h1, h2, h3]
  · simp only [applyFilters_hasCompare]
    cases hany : (applyFilters s e term kws srcs f).rows.any
        (fun a => a.published_at.isSome) with
    | false => simp
    | true =>
        have hf : f.rows.any (fun a => a.published_at.isSome) = true := by
          rcases List.any_eq_true.mp hany with ⟨a, ha, hs⟩
          exact List.any_eq_true.mpr
            ⟨a, (List.mem_filter.mp (mem_applyFilters_rows ha)).1, hs⟩
        simp [hf]

/-! ## Purity of the pipeline and export shape -/

/-- Claim C8: running the filter pipeline leaves the stored table untouched —
after the run the session dataframe holds the same records, fields and order
(`df.copy()` ends the aliasing before the pipeline's only in-place write, the
comparison-column assignment) — and the filtered result is a pure function
of the input table: exactly `applyFilters` of it. -/
theorem filter_pipeline_pure (s e : Int) (term : String)
    (kws srcs : List String) (df0 : DataFrame) :
    (runFilterPipeline s e term kws srcs df0).df = df0 ∧
    (runFilterPipeline s e term kws srcs df0).filtered =
      applyFilters s e term kws srcs df0 := by
  by_cases h : df0.rows.any (fun a => a.published_at.isSome) = true
  · exact ⟨by simp [runFilterPipeline, assignCompareColumn, DataFrame.copy, h],
      by simp [runFilterPipeline, assignCompareColumn, DataFrame.copy,
        applyFilters, liftStep, dateStepF, h]⟩
  · exact ⟨by simp [runFilterPipeline, assignCompareColumn, DataFrame.copy, h],
      by simp [runFilterPipeline, assignCompareColumn, DataFrame.copy,
        applyFilters, liftStep, dateStepF, h]⟩

/-- Claim C9 at a failing input: the Collect-tab export of a collected table
(here: one keyword, one entry, date parsed) has exactly the seven documented
columns — but the filtered-results export of the same table carries an
eighth column, the helper `Published_Date_Compare` assigned by the date
block, which is still part of `filtered_df` when it is written to CSV. -/
theorem filtered_export_extra_column :
    to_csv (collectFrame (fun _ => some 0) feedOfBad ["x"]) =
      [baseColumns,
       ["x", "Dated title", "https://example.org/b", "not-a-date", "0",
        "Example Source", "dated summary"]] ∧
    (to_csv ((runFilterPipeline 0 0 "" [] []
        (collectFrame (fun _ => some 0) feedOfBad ["x"])).filtered)).head? =
      some (baseColumns ++ ["Published_Date_Compare"]) ∧
    baseColumns ++ ["Published_Date_Compare"] ≠ baseColumns := by
  refine ⟨by decide, by decide, by decide⟩

/-! ## Per-entry date parse failure -/

/-- Claim C10: when the whole document parses, fetch yields one record per
entry (none is dropped), and an entry whose date text fails to parse still
yields its record, with `published_at` absent and every other field populated
from the entry. -/
theorem entry_date_parse_failure_keeps_record (parseDate : String → Option Int)
    (feedOf : String → Except String (List Entry)) (k : String)
    (entries : List Entry) (h : feedOf k = Except.ok entries) :
    (fetch_google_news_rss parseDate feedOf k).length = entries.length ∧
    ∀ e ∈ entries,
      entryToArticle parseDate k e ∈ fetch_google_news_rss parseDate feedOf k ∧
      (parseDate e.published = none →
        (entryToArticle parseDate k e).published_at = none ∧
        (entryToArticle parseDate k e).keyword = k ∧
        (entryToArticle parseDate k e).title = e.title ∧
        (entryToArticle parseDate k e).url = e.link ∧
        (entryToArticle parseDate k e).published = e.published ∧
        (entryToArticle parseDate k e).source = e.sourceTitle.getD "Unknown" ∧
        (entryToArticle parseDate k e).description = e.summary) := by
  have hf : fetch_google_news_rss parseDate feedOf k =
      entries.map (entryToArticle parseDate k) := by
    simp [fetch_google_news_rss, h]
  refine ⟨by simp [hf], fun e he =>
    ⟨by rw [hf]; exact List.mem_map_of_mem _ he, fun hpd => ?_⟩⟩
  refine ⟨?_, rfl, rfl, rfl, rfl, rfl, rfl⟩
  simp [entryToArticle, hpd]

/-- Witness for claim C10: the single bad-date entry still yields its one
record, with `published_at` absent. -/
theorem entry_date_parse_failure_keeps_record_witness :
    (fetch_google_news_rss parseDateNone feedOfBad "x").length = 1 ∧
    (entryToArticle parseDateNone "x" entryBadDate).published_at = none := by
  have h := entry_date_parse_failure_keeps_record parseDateNone feedOfBad "x"
      [entryBadDate] rfl
  exact ⟨h.1, ((h.2 entryBadDate (by simp)).2 rfl).1⟩
